import Mathlib

/-!
Shallow embedding of the 2048 grid engine in `src/map.ts` of the
repository, together with theorems checking its natural-language
specification.

Conventions of the embedding:
* a JS `Cell` (`CellObject | null`) is `Option CellObject`;
* JS arrays are `List`s; an out-of-range read that JS would answer with
  `undefined` and immediately crash on (`map[0].length` on an empty map,
  destructuring `undefined`) is modelled by an explicit `Except` error of
  kind `JsErr.typeError`; in-range reads use `List.getD`;
* JS numbers carrying tile values and scores are `Nat` (the game only
  ever holds positive powers of two and sums of them);
* `Math.random`-derived draws are passed in as explicit parameters
  (a `Bool` coin for the 2-vs-4 choice, a `Nat` index for position
  choices), so every function is a pure function of its inputs.
-/

/-- `CellState` of `map.ts`: `"normal" | "merged" | "new"`. -/
inductive CellState where
  | normal
  | merged
  | new
deriving DecidableEq

/-- `CellObject` of `map.ts`: `{ state: CellState; value: number }`. -/
structure CellObject where
  state : CellState
  value : Nat
deriving DecidableEq

/-- `Cell = CellObject | null`. -/
abbrev Cell := Option CellObject

/-- `Map2048 = Cell[][]`. -/
abbrev Map2048 := List (List Cell)

/-- `Direction = "up" | "left" | "right" | "down"`. -/
inductive Direction where
  | up
  | left
  | right
  | down
deriving DecidableEq

/-- `RotateDegree = 0 | 90 | 180 | 270`. -/
inductive RotateDegree where
  | d0
  | d90
  | d180
  | d270
deriving DecidableEq

/-- `MoveResult = { result: Map2048; isMoved: boolean, score: number }`. -/
structure MoveResult where
  result : Map2048
  isMoved : Bool
  score : Nat
deriving DecidableEq

/-- A thrown JS exception: either a `TypeError` raised by the runtime
(reading `.length` of `undefined`, destructuring `undefined`), or an
explicit `throw new Error(msg)`. -/
inductive JsErr where
  | typeError
  | errorMsg (msg : String)
deriving DecidableEq

deriving instance DecidableEq for Except

/-- The accumulator of the `row.reduce` call inside `moveRowLeft`:
`{ lastCell: Cell; result: Cell[], score: number }`. -/
structure RowAcc where
  lastCell : Cell
  result : List Cell
  score : Nat
deriving DecidableEq

/-- One step of the `row.reduce` callback in `moveRowLeft` (`map.ts`):
skip `null` cells; stash the first pending cell; on equal values emit a
`merged` cell of doubled value and add it to the score; otherwise emit
the pending cell with state `normal` and make the current cell pending. -/
def rowStep (acc : RowAcc) (cell : Cell) : RowAcc :=
  match cell with
  | none => acc
  | some c =>
    match acc.lastCell with
    | none => { acc with lastCell := some c }
    | some p =>
      if p.value = c.value then
        { lastCell := none
          result := acc.result ++ [some ⟨CellState.merged, c.value * 2⟩]
          score := acc.score + c.value * 2 }
      else
        { lastCell := some c
          result := acc.result ++ [some ⟨CellState.normal, p.value⟩]
          score := acc.score }

/-- `finalResult` of `moveRowLeft`: the emitted cells, with the pending
cell (if any) appended with state `normal`. -/
def finalizeRow (acc : RowAcc) : List Cell :=
  acc.result ++ (match acc.lastCell with
    | none => []
    | some p => [some ⟨CellState.normal, p.value⟩])

/-- `Array.from({length: n}, (_, i) => l[i] ?? null)`: the list `l`
padded (or truncated) to length `n` with `null`s. -/
def padTo (n : Nat) (l : List Cell) : List Cell :=
  (List.range n).map (fun i => (l.get? i).getD none)

/-- The return shape of `moveRowLeft`:
`{ result: Cell[]; isMoved: boolean, score: number }`. -/
structure RowResult where
  result : List Cell
  isMoved : Bool
  score : Nat
deriving DecidableEq

/-- `moveRowLeft` of `map.ts`: slide and merge one row leftward,
returning the new row, whether any value changed position, and the score
gained.  `isMoved` compares `originalCell?.value !== resultRow[i]?.value`
position by position. -/
def moveRowLeft (row : List Cell) : RowResult :=
  let reduced := row.foldl rowStep ⟨none, [], 0⟩
  let finalResult := finalizeRow reduced
  let resultRow := padTo row.length finalResult
  let isMoved := (row.zip resultRow).any
    (fun p => p.1.map CellObject.value != p.2.map CellObject.value)
  ⟨resultRow, isMoved, reduced.score⟩

/-- `moveLeft` of `map.ts`: apply `moveRowLeft` to every row; `isMoved`
is true when some row moved, `score` is the running sum of row scores. -/
def moveLeft (map : Map2048) : MoveResult :=
  let movedRows := map.map moveRowLeft
  { result := movedRows.map RowResult.result
    isMoved := movedRows.any RowResult.isMoved
    score := movedRows.foldl (fun acc r => acc + r.score) 0 }

/-- The index remapping of `rotateMapCounterClockwise` (`map.ts`), as a
total function on lists of lists over any element type: `rowLength` is
`map.length`, `columnLength` is `map[0].length`, and each branch builds
the output with `Array.from` over index ranges.  The default `d` stands
for the value a (never exercised in-bounds) out-of-range JS read would
produce; on grids whose reads are in bounds — all uses below — this is
exactly the source's semantics.  The crash of `map[0].length` on an
empty map is modelled separately in `rotateMapCounterClockwise`. -/
def rotateTotal (d : α) (map : List (List α)) (degree : RotateDegree) :
    List (List α) :=
  let rowLength := map.length
  let columnLength := (map.headD []).length
  match degree with
  | .d0 => map
  | .d90 =>
    (List.range columnLength).map (fun columnIndex =>
      (List.range rowLength).map (fun rowIndex =>
        (map.getD rowIndex []).getD (columnLength - columnIndex - 1) d))
  | .d180 =>
    (List.range rowLength).map (fun rowIndex =>
      (List.range columnLength).map (fun columnIndex =>
        (map.getD (rowLength - rowIndex - 1) []).getD
          (columnLength - columnIndex - 1) d))
  | .d270 =>
    (List.range columnLength).map (fun columnIndex =>
      (List.range rowLength).map (fun rowIndex =>
        (map.getD (rowLength - rowIndex - 1) []).getD columnIndex d))

/-- `rotateMapCounterClockwise` of `map.ts`.  On an empty map the very
first statement `const rowLength = map.length; const columnLength =
map[0].length` throws a `TypeError` (`map[0]` is `undefined`), whatever
the degree; otherwise the rotation is the pure index remapping
`rotateTotal`. -/
def rotateMapCounterClockwise (map : Map2048) (degree : RotateDegree) :
    Except JsErr Map2048 :=
  if map.isEmpty then .error .typeError
  else .ok (rotateTotal none map degree)

/-- The boolean computed by `validateMapIsNByM` (`map.ts`) when the map
has a first row: every row's length equals the first row's length. -/
def validateMapIsNByM (map : Map2048) : Bool :=
  map.all (fun row => row.length == (map.headD []).length)

/-- `validateMapIsNByM` with its crash behaviour: on an empty map,
`map[0].length` throws a `TypeError` before `every` runs. -/
def validateMapIsNByM_E (map : Map2048) : Except JsErr Bool :=
  if map.isEmpty then .error .typeError
  else .ok (validateMapIsNByM map)

/-- `rotateDegreeMap` of `map.ts`: `{up: 90, right: 180, down: 270,
left: 0}`. -/
def rotateDegreeMap : Direction → RotateDegree
  | .up => .d90
  | .right => .d180
  | .down => .d270
  | .left => .d0

/-- `revertDegreeMap` of `map.ts`: `{up: 270, right: 180, down: 90,
left: 0}`. -/
def revertDegreeMap : Direction → RotateDegree
  | .up => .d270
  | .right => .d180
  | .down => .d90
  | .left => .d0

/-- `moveMapIn2048Rule` of `map.ts`: validate the map is rectangular
(throwing `Error("Map is not N by M")` when not, and propagating the
`TypeError` of `map[0].length` on an empty map), rotate by the forward
degree, slide every row left, rotate back by the revert degree. -/
def moveMapIn2048Rule (map : Map2048) (direction : Direction) :
    Except JsErr MoveResult :=
  match validateMapIsNByM_E map with
  | .error e => .error e
  | .ok false => .error (.errorMsg "Map is not N by M")
  | .ok true =>
    match rotateMapCounterClockwise map (rotateDegreeMap direction) with
    | .error e => .error e
    | .ok rotatedMap =>
      let moved := moveLeft rotatedMap
      match rotateMapCounterClockwise moved.result
          (revertDegreeMap direction) with
      | .error e => .error e
      | .ok back => .ok ⟨back, moved.isMoved, moved.score⟩

/-- Read the cell of a map at row `i`, column `j` (in-bounds reads of
`map2048[i][j]`). -/
def cellAt (map : Map2048) (i j : Nat) : Cell :=
  (map.getD i []).getD j none

/-- The `nullPositions` array collected by `addNewCell` (`map.ts`): the
coordinates `[i, j]`, in loop order over the fixed `0 ≤ i, j < 4`
ranges, whose cell is `null`. -/
def nullPositions (map2048 : Map2048) : List (Nat × Nat) :=
  (List.range 4).flatMap (fun i =>
    (List.range 4).filterMap (fun j =>
      if cellAt map2048 i j = none then some (i, j) else none))

/-- `addNewCell` of `map.ts`, with the two random draws as parameters:
`coin` decides the value (`Math.random() < 0.6 ? 2 : 4`), `k` is the
uniformly drawn index `getRandomInt(nullPositions.length)` into the
null-position list.  When the list is empty, `nullPositions[0]` is
`undefined` and the destructuring `const [i, j] = ...` throws a
`TypeError`.  The `with` calls build a fresh grid with one cell
replaced. -/
def addNewCell (map2048 : Map2048) (coin : Bool) (k : Nat) :
    Except JsErr Map2048 :=
  let randomInt1 := if coin then 2 else 4
  match (nullPositions map2048).get? k with
  | none => .error .typeError
  | some (i, j) =>
    .ok (map2048.set i
      ((map2048.getD i []).set j (some ⟨CellState.new, randomInt1⟩)))

/-- A cell as seen by `userLoses`: `map.ts` compares cells with `===`,
which on objects is *reference* identity, so the embedding of that
function carries an allocation identity (`Nat`) alongside each
`CellObject`.  Two distinct object allocations are `!==` even when their
fields coincide; `null === null` is true. -/
abbrev RefCell := Option (CellObject × Nat)

/-- A map as seen by `userLoses`: cells tagged with their allocation
identity. -/
abbrev RefMap := List (List RefCell)

/-- JS `===` on two `Cell` references: both `null`, or the very same
object allocation. -/
def refEq : RefCell → RefCell → Bool
  | none, none => true
  | some (_, a), some (_, b) => a == b
  | _, _ => false

/-- In-bounds read of `map2048[i][j]` on a reference-tagged map. -/
def cellAtR (map : RefMap) (i j : Nat) : RefCell :=
  (map.getD i []).getD j none

/-- `userLoses` of `map.ts`: scan the fixed `4 × 4` index ranges; return
`false` as soon as some cell `=== null`; otherwise return `false` as
soon as some cell is `===` to its right neighbour (when `j < 3`) or to
its lower neighbour (when `i < 3`); else return `true`.  Note both
neighbour tests use JS `===`, i.e. reference identity. -/
def userLoses (map2048 : RefMap) : Bool :=
  if (List.range 4).any (fun i => (List.range 4).any (fun j =>
      (cellAtR map2048 i j).isNone)) then false
  else if (List.range 4).any (fun i => (List.range 4).any (fun j =>
      (decide (j < 3) && refEq (cellAtR map2048 i j)
        (cellAtR map2048 i (j + 1))) ||
      (decide (i < 3) && refEq (cellAtR map2048 i j)
        (cellAtR map2048 (i + 1) j)))) then false
  else true

/-- A full `4 × 4` board every one of whose sixteen tiles has value `2`,
each tile being (as the program always produces) a distinct freshly
allocated object: allocation identities `4 * i + j` are pairwise
different. -/
def allTwosGrid : RefMap :=
  (List.range 4).map (fun i => (List.range 4).map (fun j =>
    some (⟨CellState.normal, 2⟩, 4 * i + j)))

/-! ### Specification-side definitions

The next definitions are written from the specification's words, not
from the source; the theorems below compare the source embedding against
them. -/

/-- Modelled from the spec's description of the Line Reducer: scan the
non-empty values left to right keeping a pending value; on an equal
value, emit the doubled pending value flagged as merged and add it to
the score, clearing pending; on a different value emit the pending value
unmerged; at the end emit a leftover pending value unmerged.  Returns
the emitted `(value, wasMerged)` list and the score. -/
def mergeSpec : Option Nat → List Nat → List (Nat × Bool) × Nat
  | none, [] => ([], 0)
  | some p, [] => ([(p, false)], 0)
  | none, v :: t => mergeSpec (some v) t
  | some p, v :: t =>
    if p = v then
      ((2 * p, true) :: (mergeSpec none t).1, (mergeSpec none t).2 + 2 * p)
    else
      ((p, false) :: (mergeSpec (some v) t).1, (mergeSpec (some v) t).2)

/-- An emitted `(value, wasMerged)` pair as a concrete cell: merged
cells get state `merged`, all others state `normal`. -/
def emittedCell (p : Nat × Bool) : Cell :=
  some ⟨if p.2 then CellState.merged else CellState.normal, p.1⟩

/-- The values of the non-empty cells of a row, in order. -/
def rowValues (row : List Cell) : List Nat :=
  row.filterMap (Option.map CellObject.value)

/-- Forward rotation angle of the spec: `left→0, up→90, right→180,
down→270`. -/
def forwardAngle : Direction → Nat
  | .left => 0
  | .up => 90
  | .right => 180
  | .down => 270

/-- Inverse rotation angle of the spec: `360 − forward (mod 360)`. -/
def inverseAngle (d : Direction) : Nat :=
  (360 - forwardAngle d) % 360

/-- An angle in `{0, 90, 180, 270}` as a `RotateDegree`. -/
def degOfAngle : Nat → RotateDegree
  | 90 => .d90
  | 180 => .d180
  | 270 => .d270
  | _ => .d0

/-- The value content of a map, forgetting the presentational `state`
field: position by position, `none` for an empty cell and `some v` for
a tile of value `v`. -/
def valMap (map : Map2048) : List (List (Option Nat)) :=
  map.map (List.map (Option.map CellObject.value))

/-- The value of a cell, `0` for an empty cell. -/
def cellValue : Cell → Nat
  | none => 0
  | some c => c.value

/-- The sum of all tile values on a map. -/
def gridSum (map : Map2048) : Nat :=
  (map.map (fun row => (row.map cellValue).sum)).sum

/-- A `2 × 2` board on which no leftward move is possible. -/
def gStuck : Map2048 :=
  [[some ⟨CellState.normal, 2⟩, some ⟨CellState.normal, 4⟩],
   [some ⟨CellState.normal, 4⟩, some ⟨CellState.normal, 2⟩]]

/-- A `1 × 1` board used to witness the amended rotation claims. -/
def gOne : Map2048 := [[some ⟨CellState.normal, 2⟩]]

/-- A `1 × 2` board used to witness the rotation remapping claim. -/
def gRow : Map2048 :=
  [[some ⟨CellState.normal, 2⟩, some ⟨CellState.normal, 4⟩]]

/-- A `2 × 2` board with one mergeable row, used as a witness. -/
def gPair : Map2048 :=
  [[some ⟨CellState.normal, 2⟩, some ⟨CellState.normal, 2⟩],
   [none, none]]

/-- A full `4 × 4` board except for one empty cell at `(2, 3)`. -/
def gHole : Map2048 :=
  [[some ⟨CellState.normal, 2⟩, some ⟨CellState.normal, 4⟩,
    some ⟨CellState.normal, 2⟩, some ⟨CellState.normal, 4⟩],
   [some ⟨CellState.normal, 4⟩, some ⟨CellState.normal, 2⟩,
    some ⟨CellState.normal, 4⟩, some ⟨CellState.normal, 2⟩],
   [some ⟨CellState.normal, 2⟩, some ⟨CellState.normal, 4⟩,
    some ⟨CellState.normal, 2⟩, none],
   [some ⟨CellState.normal, 4⟩, some ⟨CellState.normal, 2⟩,
    some ⟨CellState.normal, 4⟩, some ⟨CellState.normal, 2⟩]]

/-! ### Lemmas about the line reducer -/

/-- The `reduce` loop of `moveRowLeft`, run from an arbitrary
accumulator, emits exactly the cells described by the specification's
pending-cell scan `mergeSpec`, and earns exactly its score. -/
theorem foldl_rowStep_spec (cells : List Cell) (p : Cell) (R : List Cell)
    (s : Nat) :
    finalizeRow (cells.foldl rowStep ⟨p, R, s⟩) =
      R ++ ((mergeSpec (p.map CellObject.value)
        (rowValues cells)).1.map emittedCell) ∧
    (cells.foldl rowStep ⟨p, R, s⟩).score =
      s + (mergeSpec (p.map CellObject.value) (rowValues cells)).2 := by
  induction cells generalizing p R s with
  | nil =>
    cases p with
    | none => simp [finalizeRow, mergeSpec, rowValues]
    | some q => simp [finalizeRow, mergeSpec, rowValues, emittedCell]
  | cons c t ih =>
    cases c with
    | none => simpa [rowValues, rowStep] using ih p R s
    | some o =>
      cases p with
      | none => simpa [rowValues, rowStep, mergeSpec] using ih (some o) R s
      | some q =>
        by_cases h : q.value = o.value
        · obtain ⟨h1, h2⟩ :=
            ih none (R ++ [some ⟨CellState.merged, o.value * 2⟩])
              (s + o.value * 2)
          constructor
          · simp only [List.foldl_cons, rowStep, h, if_pos]
            rw [h1]
            simp [rowValues, mergeSpec, h, emittedCell, Nat.mul_comm]
          · simp only [List.foldl_cons, rowStep, h, if_pos]
            rw [h2]
            simp only [rowValues, List.filterMap_cons, Option.map_some',
              Option.map_none', mergeSpec, h, if_pos, eq_self_iff_true,
              if_true]
            omega
        · obtain ⟨h1, h2⟩ :=
            ih (some o) (R ++ [some ⟨CellState.normal, q.value⟩]) s
          constructor
          · simp only [List.foldl_cons, rowStep, h, if_neg, not_false_iff]
            rw [h1]
            simp [rowValues, mergeSpec, h, emittedCell]
          · simp only [List.foldl_cons, rowStep, h, if_neg, not_false_iff]
            rw [h2]
            simp [rowValues, mergeSpec, h]

/-- Padding a list no longer than `n` appends `null`s on the right. -/
theorem padTo_eq_append (l : List Cell) (n : Nat) (h : l.length ≤ n) :
    padTo n l = l ++ List.replicate (n - l.length) none := by
  induction l generalizing n with
  | nil => simp [padTo, List.map_const']
  | cons a l ih =>
    cases n with
    | zero => simp at h
    | succ m =>
      have : padTo (m + 1) (a :: l) = a :: padTo m l := by
        simp [padTo, List.range_succ_eq_map, List.map_map, Function.comp]
      rw [this, ih m (by simpa using h)]
      simp

/-- `padTo` restores the requested length when the input is short
enough. -/
theorem padTo_length (l : List Cell) (n : Nat) :
    (padTo n l).length = n := by
  simp [padTo]

/-- `mergeSpec` never emits more cells than it consumes (counting a
pending cell as consumed). -/
theorem mergeSpec_length :
    ∀ (vs : List Nat) (p : Option Nat),
    (mergeSpec p vs).1.length ≤ (p.elim 0 (fun _ => 1)) + vs.length := by
  intro vs
  induction vs with
  | nil => intro p; cases p <;> simp [mergeSpec]
  | cons v t ih =>
    intro p
    cases p with
    | none =>
      have := ih (some v)
      simp only [mergeSpec, List.length_cons]
      simp only [Option.elim] at this ⊢
      omega
    | some q =>
      by_cases h : q = v
      · have := ih none
        simp only [mergeSpec, h, if_pos]
        simp only [Option.elim] at this ⊢
        simp only [List.length_cons]
        omega
      · have := ih (some v)
        simp only [mergeSpec, h, if_neg, not_false_iff]
        simp only [Option.elim] at this ⊢
        simp only [List.length_cons]
        omega

/-- The number of non-empty values in a row is at most its length. -/
theorem rowValues_length_le (row : List Cell) :
    (rowValues row).length ≤ row.length := by
  simpa [rowValues] using List.length_filterMap_le _ row

/-- The emitted cells of a row fit inside it. -/
theorem mergeSpec_row_length_le (row : List Cell) :
    ((mergeSpec none (rowValues row)).1.map emittedCell).length ≤
      row.length := by
  rw [List.length_map]
  calc (mergeSpec none (rowValues row)).1.length
      ≤ 0 + (rowValues row).length := by
        simpa using mergeSpec_length (rowValues row) none
    _ ≤ row.length := by simpa using rowValues_length_le row

/-- Full characterization of the row of cells produced by
`moveRowLeft`: the merged cells of the specification scan, padded on the
right with `null`s, and the specification scan's score. -/
theorem moveRowLeft_eq_spec (row : List Cell) :
    (moveRowLeft row).result =
      ((mergeSpec none (rowValues row)).1.map emittedCell) ++
        List.replicate
          (row.length - (mergeSpec none (rowValues row)).1.length) none ∧
    (moveRowLeft row).score = (mergeSpec none (rowValues row)).2 := by
  have hfold := foldl_rowStep_spec row none [] 0
  simp only [Option.map_none', List.nil_append, Nat.zero_add] at hfold
  obtain ⟨h1, h2⟩ := hfold
  constructor
  · show padTo row.length (finalizeRow (row.foldl rowStep ⟨none, [], 0⟩)) = _
    rw [h1, padTo_eq_append _ _ (mergeSpec_row_length_le row),
      List.length_map]
  · show (row.foldl rowStep ⟨none, [], 0⟩).score = _
    simpa using h2

/-- The result row of `moveRowLeft` keeps the row's length. -/
theorem moveRowLeft_result_length (row : List Cell) :
    (moveRowLeft row).result.length = row.length := by
  show (padTo row.length _).length = row.length
  exact padTo_length _ _

/-- `List.any` over a zip of equally long lists, read through positional
`getD` accesses. -/
theorem zip_any_iff_exists (p : Cell → Cell → Bool) :
    ∀ (l m : List Cell), l.length = m.length →
    (((l.zip m).any (fun x => p x.1 x.2)) = true ↔
      ∃ i, i < l.length ∧ p (l.getD i none) (m.getD i none) = true) := by
  intro l
  induction l with
  | nil => intro m h; simp
  | cons a l ih =>
    intro m h
    cases m with
    | nil => simp at h
    | cons b m' =>
      simp only [List.zip_cons_cons, List.any_cons, Bool.or_eq_true,
        List.length_cons]
      rw [ih m' (by simpa using h)]
      constructor
      · rintro (hpb | ⟨i, hi, hp⟩)
        · exact ⟨0, by omega, by simpa using hpb⟩
        · exact ⟨i + 1, by omega, by simpa using hp⟩
      · rintro ⟨i, hi, hp⟩
        cases i with
        | zero => exact Or.inl (by simpa using hp)
        | succ i => exact Or.inr ⟨i, by omega, by simpa using hp⟩

/-! ### Lemmas about positional list access and rotation -/

/-- Reading a mapped range at an in-range index. -/
theorem getD_range_map {α : Type} (f : Nat → α) (n i : Nat) (d : α)
    (h : i < n) : ((List.range n).map f).getD i d = f i := by
  rw [List.getD_eq_getElem?_getD]
  simp [List.getElem?_map, List.getElem?_range h]

/-- Rebuilding a list from its positional reads. -/
theorem range_map_getD_self {α : Type} (l : List α) (d : α) :
    (List.range l.length).map (fun i => l.getD i d) = l := by
  induction l with
  | nil => simp
  | cons a t ih =>
    simp only [List.length_cons, List.range_succ_eq_map, List.map_cons,
      List.map_map]
    refine congrArg₂ (· :: ·) (by simp) ?_
    convert ih using 2

/-- `headD` is the positional read at `0`. -/
theorem headD_eq_getD_zero {α : Type} (l : List α) (d : α) :
    l.headD d = l.getD 0 d := by
  cases l <;> simp

/-- A grid equals the double range-map of its positional reads, given
rectangularity. -/
theorem grid_eq_range_map {α : Type} (m : List (List α)) (C : Nat)
    (d : α) (hrect : ∀ row ∈ m, row.length = C) :
    (List.range m.length).map (fun i => (List.range C).map
      (fun j => (m.getD i []).getD j d)) = m := by
  have h1 : ∀ i ∈ List.range m.length,
      (List.range C).map (fun j => (m.getD i []).getD j d) =
        m.getD i [] := by
    intro i hi
    rw [List.mem_range] at hi
    have hmem : m.getD i [] ∈ m := by
      rw [List.getD_eq_getElem _ _ hi]
      exact List.getElem_mem _
    rw [← hrect _ hmem]
    exact range_map_getD_self _ d
  rw [List.map_congr_left h1]
  exact range_map_getD_self m []

/-- Length of a row of a rectangular grid. -/
theorem rect_getD_length {α : Type} (m : List (List α)) (C : Nat)
    (hrect : ∀ row ∈ m, row.length = C) (i : Nat) (hi : i < m.length) :
    (m.getD i []).length = C := by
  have hmem : m.getD i [] ∈ m := by
    rw [List.getD_eq_getElem _ _ hi]
    exact List.getElem_mem _
  exact hrect _ hmem

/-- Row count of each rotation: `R` for `0°` and `180°`, `C` (the first
row's length) for `90°` and `270°`. -/
theorem rotateTotal_length {α : Type} (d : α) (m : List (List α)) :
    (rotateTotal d m .d0).length = m.length ∧
    (rotateTotal d m .d90).length = (m.headD []).length ∧
    (rotateTotal d m .d180).length = m.length ∧
    (rotateTotal d m .d270).length = (m.headD []).length := by
  refine ⟨rfl, ?_, ?_, ?_⟩ <;> simp [rotateTotal]

/-- Every row of a `90°`/`270°` rotation has length `R`; every row of a
`180°` rotation has length `C`. -/
theorem rotateTotal_row_length {α : Type} (d : α) (m : List (List α)) :
    (∀ row ∈ rotateTotal d m .d90, row.length = m.length) ∧
    (∀ row ∈ rotateTotal d m .d180,
      row.length = (m.headD []).length) ∧
    (∀ row ∈ rotateTotal d m .d270, row.length = m.length) := by
  refine ⟨?_, ?_, ?_⟩ <;>
    · intro row hrow
      simp only [rotateTotal, List.mem_map, List.mem_range] at hrow
      obtain ⟨i, _, rfl⟩ := hrow
      simp

/-- Entry of the `90°` rotation: `output[c][r] = input[r][C-c-1]`. -/
theorem rotateTotal_d90_entry {α : Type} (d : α) (m : List (List α))
    (c r : Nat) (hc : c < (m.headD []).length) (hr : r < m.length) :
    ((rotateTotal d m .d90).getD c []).getD r d =
      (m.getD r []).getD ((m.headD []).length - c - 1) d := by
  simp only [rotateTotal]
  rw [getD_range_map _ _ _ _ hc, getD_range_map _ _ _ _ hr]

/-- Entry of the `180°` rotation:
`output[r][c] = input[R-r-1][C-c-1]`. -/
theorem rotateTotal_d180_entry {α : Type} (d : α) (m : List (List α))
    (r c : Nat) (hr : r < m.length) (hc : c < (m.headD []).length) :
    ((rotateTotal d m .d180).getD r []).getD c d =
      (m.getD (m.length - r - 1) []).getD
        ((m.headD []).length - c - 1) d := by
  simp only [rotateTotal]
  rw [getD_range_map _ _ _ _ hr, getD_range_map _ _ _ _ hc]

/-- Entry of the `270°` rotation: `output[c][r] = input[R-r-1][c]`. -/
theorem rotateTotal_d270_entry {α : Type} (d : α) (m : List (List α))
    (c r : Nat) (hc : c < (m.headD []).length) (hr : r < m.length) :
    ((rotateTotal d m .d270).getD c []).getD r d =
      (m.getD (m.length - r - 1) []).getD c d := by
  simp only [rotateTotal]
  rw [getD_range_map _ _ _ _ hc, getD_range_map _ _ _ _ hr]

/-- Rotating a nonempty rectangular grid with at least one column by
`90°` and then by `270°` gives the grid back. -/
theorem rotateTotal_d90_d270 {α : Type} (d : α) (m : List (List α))
    (C : Nat) (hR : 0 < m.length) (hC : 0 < C)
    (hrect : ∀ row ∈ m, row.length = C) :
    rotateTotal d (rotateTotal d m .d90) .d270 = m := by
  have hhead : (m.headD []).length = C := by
    rw [headD_eq_getD_zero]
    exact rect_getD_length m C hrect 0 hR
  set A := rotateTotal d m .d90 with hA
  have hAlen : A.length = C := by
    rw [hA, (rotateTotal_length d m).2.1, hhead]
  have hArows : ∀ row ∈ A, row.length = m.length :=
    (rotateTotal_row_length d m).1
  have hAhead : (A.headD []).length = m.length := by
    rw [headD_eq_getD_zero]
    exact rect_getD_length A m.length hArows 0 (by omega)
  show (List.range (A.headD []).length).map (fun columnIndex =>
    (List.range A.length).map (fun rowIndex =>
      (A.getD (A.length - rowIndex - 1) []).getD columnIndex d)) = m
  rw [hAhead, hAlen]
  conv_rhs => rw [← grid_eq_range_map m C d hrect]
  apply List.map_congr_left
  intro c hc
  rw [List.mem_range] at hc
  apply List.map_congr_left
  intro r hr
  rw [List.mem_range] at hr
  rw [hA, rotateTotal_d90_entry d m (C - r - 1) c (by omega) hc]
  have harith : (m.headD []).length - (C - r - 1) - 1 = r := by
    rw [hhead]; omega
  rw [harith]

/-- Rotating a nonempty rectangular grid with at least one column by
`270°` and then by `90°` gives the grid back. -/
theorem rotateTotal_d270_d90 {α : Type} (d : α) (m : List (List α))
    (C : Nat) (hR : 0 < m.length) (hC : 0 < C)
    (hrect : ∀ row ∈ m, row.length = C) :
    rotateTotal d (rotateTotal d m .d270) .d90 = m := by
  have hhead : (m.headD []).length = C := by
    rw [headD_eq_getD_zero]
    exact rect_getD_length m C hrect 0 hR
  set A := rotateTotal d m .d270 with hA
  have hAlen : A.length = C := by
    rw [hA, (rotateTotal_length d m).2.2.2, hhead]
  have hArows : ∀ row ∈ A, row.length = m.length :=
    (rotateTotal_row_length d m).2.2
  have hAhead : (A.headD []).length = m.length := by
    rw [headD_eq_getD_zero]
    exact rect_getD_length A m.length hArows 0 (by omega)
  show (List.range (A.headD []).length).map (fun columnIndex =>
    (List.range A.length).map (fun rowIndex =>
      (A.getD rowIndex []).getD
        ((A.headD []).length - columnIndex - 1) d)) = m
  rw [hAhead, hAlen]
  conv_rhs => rw [← grid_eq_range_map m C d hrect]
  apply List.map_congr_left
  intro c hc
  rw [List.mem_range] at hc
  apply List.map_congr_left
  intro r hr
  rw [List.mem_range] at hr
  rw [hA,
    rotateTotal_d270_entry d m r (m.length - c - 1) (by omega) (by omega)]
  have harith : m.length - (m.length - c - 1) - 1 = c := by omega
  rw [harith]

/-- Rotating a nonempty rectangular grid by `180°` twice gives the grid
back. -/
theorem rotateTotal_d180_d180 {α : Type} (d : α) (m : List (List α))
    (C : Nat) (hR : 0 < m.length)
    (hrect : ∀ row ∈ m, row.length = C) :
    rotateTotal d (rotateTotal d m .d180) .d180 = m := by
  have hhead : (m.headD []).length = C := by
    rw [headD_eq_getD_zero]
    exact rect_getD_length m C hrect 0 hR
  set A := rotateTotal d m .d180 with hA
  have hAlen : A.length = m.length := by
    rw [hA, (rotateTotal_length d m).2.2.1]
  have hArows : ∀ row ∈ A, row.length = C := by
    intro row hrow
    rw [← hhead]
    exact (rotateTotal_row_length d m).2.1 row hrow
  have hAhead : (A.headD []).length = C := by
    rw [headD_eq_getD_zero]
    exact rect_getD_length A C hArows 0 (by omega)
  show (List.range A.length).map (fun rowIndex =>
    (List.range (A.headD []).length).map (fun columnIndex =>
      (A.getD (A.length - rowIndex - 1) []).getD
        ((A.headD []).length - columnIndex - 1) d)) = m
  rw [hAhead, hAlen]
  conv_rhs => rw [← grid_eq_range_map m C d hrect]
  apply List.map_congr_left
  intro r hr
  rw [List.mem_range] at hr
  apply List.map_congr_left
  intro c hc
  rw [List.mem_range] at hc
  rw [hA, rotateTotal_d180_entry d m (m.length - r - 1) (C - c - 1)
    (by omega) (by rw [hhead]; omega)]
  have ha1 : m.length - (m.length - r - 1) - 1 = r := by omega
  have ha2 : (m.headD []).length - (C - c - 1) - 1 = c := by
    rw [hhead]; omega
  rw [ha1, ha2]

/-- `getD` through `map`, with the mapped default. -/
theorem getD_map_general {α β : Type} (g : α → β) (l : List α) (i : Nat)
    (d : α) : (l.map g).getD i (g d) = g (l.getD i d) := by
  rw [List.getD_eq_getElem?_getD, List.getElem?_map,
    List.getD_eq_getElem?_getD]
  cases l[i]? <;> simp

/-- `getD` of a row of a mapped grid. -/
theorem getD_map_nil {α β : Type} (f : α → β) (m : List (List α))
    (i : Nat) :
    (m.map (List.map f)).getD i [] = List.map f (m.getD i []) := by
  simpa using getD_map_general (List.map f) m i []

/-- Two lists of the same length that agree on every positional read
are equal. -/
theorem list_eq_of_getD {α : Type} (l₁ l₂ : List α) (d : α)
    (hlen : l₁.length = l₂.length)
    (h : ∀ i, i < l₁.length → l₁.getD i d = l₂.getD i d) : l₁ = l₂ := by
  rw [← range_map_getD_self l₁ d, ← range_map_getD_self l₂ d, ← hlen]
  apply List.map_congr_left
  intro i hi
  rw [List.mem_range] at hi
  exact h i hi

/-- Mapping a function over the cells commutes with rotation (rotation
is pure index remapping). -/
theorem map_rotateTotal {α β : Type} (f : α → β) (d : α)
    (m : List (List α)) (deg : RotateDegree) :
    (rotateTotal d m deg).map (List.map f) =
      rotateTotal (f d) (m.map (List.map f)) deg := by
  have hlen : (m.map (List.map f)).length = m.length := by simp
  have hhead : ((m.map (List.map f)).headD []).length =
      (m.headD []).length := by cases m <;> simp
  cases deg with
  | d0 => rfl
  | d90 =>
    simp only [rotateTotal, List.map_map, hlen, hhead]
    apply List.map_congr_left
    intro c _
    simp only [Function.comp_apply, List.map_map]
    apply List.map_congr_left
    intro r _
    simp only [Function.comp_apply, getD_map_nil]
    exact (getD_map_general f _ _ _).symm
  | d180 =>
    simp only [rotateTotal, List.map_map, hlen, hhead]
    apply List.map_congr_left
    intro r _
    simp only [Function.comp_apply, List.map_map]
    apply List.map_congr_left
    intro c _
    simp only [Function.comp_apply, getD_map_nil]
    exact (getD_map_general f _ _ _).symm
  | d270 =>
    simp only [rotateTotal, List.map_map, hlen, hhead]
    apply List.map_congr_left
    intro c _
    simp only [Function.comp_apply, List.map_map]
    apply List.map_congr_left
    intro r _
    simp only [Function.comp_apply, getD_map_nil]
    exact (getD_map_general f _ _ _).symm

/-- Rotation commutes with forgetting the cell states. -/
theorem valMap_rotateTotal (m : Map2048) (deg : RotateDegree) :
    valMap (rotateTotal none m deg) = rotateTotal none (valMap m) deg := by
  have h := map_rotateTotal (Option.map CellObject.value) none m deg
  simpa [valMap] using h

/-! ### Lemmas about the full move -/

/-- A valid (rectangular) map has all rows of the first row's length. -/
theorem validate_rect (g : Map2048) (h : validateMapIsNByM g = true) :
    ∀ row ∈ g, row.length = (g.headD []).length := by
  intro row hrow
  simp only [validateMapIsNByM, List.all_eq_true] at h
  simpa using h row hrow

/-- The rows of the result of `moveLeft`. -/
theorem moveLeft_result_rows (m : Map2048) :
    (moveLeft m).result = m.map (fun row => (moveRowLeft row).result) := by
  simp [moveLeft, List.map_map, Function.comp]

/-- `moveLeft` keeps the number of rows. -/
theorem moveLeft_result_num_rows (m : Map2048) :
    (moveLeft m).result.length = m.length := by
  rw [moveLeft_result_rows]
  simp

/-- `moveLeft` keeps the length of every row. -/
theorem moveLeft_rect (m : Map2048) (C : Nat)
    (h : ∀ row ∈ m, row.length = C) :
    ∀ row ∈ (moveLeft m).result, row.length = C := by
  intro row hrow
  rw [moveLeft_result_rows] at hrow
  simp only [List.mem_map] at hrow
  obtain ⟨orig, hmem, rfl⟩ := hrow
  rw [moveRowLeft_result_length]
  exact h orig hmem

/-- A row that did not move has the same values, position by
position. -/
theorem moveRowLeft_not_moved_values (row : List Cell)
    (h : (moveRowLeft row).isMoved = false) :
    (moveRowLeft row).result.map (Option.map CellObject.value) =
      row.map (Option.map CellObject.value) := by
  have hiff := zip_any_iff_exists
    (fun a b => a.map CellObject.value != b.map CellObject.value)
    row (moveRowLeft row).result (moveRowLeft_result_length row).symm
  have hmv : ((row.zip (moveRowLeft row).result).any
      (fun x => x.1.map CellObject.value !=
        x.2.map CellObject.value)) = false := h
  have hall : ∀ i, i < row.length →
      (row.getD i none).map CellObject.value =
        ((moveRowLeft row).result.getD i none).map CellObject.value := by
    intro i hi
    by_contra hne
    have : ((row.zip (moveRowLeft row).result).any
        (fun x => x.1.map CellObject.value !=
          x.2.map CellObject.value)) = true := by
      rw [hiff]
      exact ⟨i, hi, by simpa [bne_iff_ne] using hne⟩
    rw [hmv] at this
    exact Bool.false_ne_true this
  apply list_eq_of_getD _ _ none
  · simp [moveRowLeft_result_length]
  · intro i hi
    have hi' : i < row.length := by
      simpa [moveRowLeft_result_length] using hi
    have h1 := getD_map_general (Option.map CellObject.value)
      (moveRowLeft row).result i none
    have h2 := getD_map_general (Option.map CellObject.value) row i none
    simp only [Option.map_none'] at h1 h2
    rw [h1, h2]
    exact (hall i hi').symm

/-- A `moveLeft` reporting no movement preserved the value content of
every row. -/
theorem moveLeft_not_moved_valMap (m : Map2048)
    (h : (moveLeft m).isMoved = false) :
    valMap (moveLeft m).result = valMap m := by
  have hrows : ∀ row ∈ m, (moveRowLeft row).isMoved = false := by
    intro row hrow
    have hany : (m.map moveRowLeft).any RowResult.isMoved = false := h
    rw [List.any_eq_false] at hany
    exact Bool.eq_false_iff.mpr
      (hany (moveRowLeft row) (List.mem_map_of_mem _ hrow))
  rw [valMap, valMap, moveLeft_result_rows, List.map_map]
  apply List.map_congr_left
  intro row hrow
  exact moveRowLeft_not_moved_values row (hrows row hrow)

/-- Inversion of a successful `moveMapIn2048Rule` call: the map was
nonempty and rectangular, the intermediate result was nonempty, and the
returned value is the rotate–reduce–rotate composition. -/
theorem moveMap_ok_inversion (g : Map2048) (dir : Direction)
    (r : MoveResult) (hok : moveMapIn2048Rule g dir = .ok r) :
    g.isEmpty = false ∧ validateMapIsNByM g = true ∧
    (moveLeft (rotateTotal none g (rotateDegreeMap dir))).result.isEmpty
      = false ∧
    r = ⟨rotateTotal none
        (moveLeft (rotateTotal none g (rotateDegreeMap dir))).result
        (revertDegreeMap dir),
      (moveLeft (rotateTotal none g (rotateDegreeMap dir))).isMoved,
      (moveLeft (rotateTotal none g (rotateDegreeMap dir))).score⟩ := by
  by_cases h1 : g.isEmpty = true
  · simp [moveMapIn2048Rule, validateMapIsNByM_E, h1] at hok
  · rw [Bool.not_eq_true] at h1
    by_cases h2 : validateMapIsNByM g = true
    · by_cases h3 : (moveLeft (rotateTotal none g
          (rotateDegreeMap dir))).result.isEmpty = true
      · simp [moveMapIn2048Rule, validateMapIsNByM_E,
          rotateMapCounterClockwise, h1, h2, h3] at hok
      · rw [Bool.not_eq_true] at h3
        refine ⟨h1, h2, h3, ?_⟩
        simp only [moveMapIn2048Rule, validateMapIsNByM_E,
          rotateMapCounterClockwise, h1, h2, h3, Bool.false_eq_true,
          if_false, if_neg] at hok
        exact (Except.ok.inj hok).symm
    · rw [Bool.not_eq_true] at h2
      simp [moveMapIn2048Rule, validateMapIsNByM_E, h1, h2] at hok

/-- A move that reports `isMoved = false` returned a grid with exactly
the value content of its input. -/
theorem moveMap_not_moved_valMap (g : Map2048) (dir : Direction)
    (r : MoveResult) (hok : moveMapIn2048Rule g dir = .ok r)
    (hnm : r.isMoved = false) : valMap r.result = valMap g := by
  obtain ⟨h1, h2, h3, hr⟩ := moveMap_ok_inversion g dir r hok
  set rotated := rotateTotal none g (rotateDegreeMap dir) with hrot
  have hM : (moveLeft rotated).isMoved = false := by
    rw [hr] at hnm
    exact hnm
  have hml := moveLeft_not_moved_valMap rotated hM
  have hrve : valMap r.result =
      rotateTotal none (valMap rotated) (revertDegreeMap dir) := by
    rw [hr]
    show valMap (rotateTotal none (moveLeft rotated).result
      (revertDegreeMap dir)) = _
    rw [valMap_rotateTotal, hml]
  have hglen : 0 < g.length := by
    cases g with
    | nil => simp at h1
    | cons a t => simp
  have hrect := validate_rect g h2
  have hvrect : ∀ row ∈ valMap g, row.length = (g.headD []).length := by
    intro row hrow
    simp only [valMap, List.mem_map] at hrow
    obtain ⟨orig, hmem, rfl⟩ := hrow
    simp [hrect orig hmem]
  have hvlen : (valMap g).length = g.length := by simp [valMap]
  have h3' : 0 < rotated.length := by
    have hlp : 0 < (moveLeft rotated).result.length := by
      cases hres : (moveLeft rotated).result with
      | nil => rw [hres] at h3; simp at h3
      | cons a t => simp
    rwa [moveLeft_result_num_rows] at hlp
  rw [hrve, hrot, valMap_rotateTotal]
  cases dir with
  | left =>
    show rotateTotal none (rotateTotal none (valMap g) .d0) .d0 = valMap g
    rfl
  | up =>
    have hC : 0 < (g.headD []).length := by
      rw [hrot] at h3'
      simp only [rotateDegreeMap] at h3'
      rwa [(rotateTotal_length (none : Cell) g).2.1] at h3'
    have hrt := rotateTotal_d90_d270 (none : Option Nat) (valMap g)
      (g.headD []).length (by rw [hvlen]; exact hglen) hC hvrect
    simpa [rotateDegreeMap, revertDegreeMap] using hrt
  | down =>
    have hC : 0 < (g.headD []).length := by
      rw [hrot] at h3'
      simp only [rotateDegreeMap] at h3'
      rwa [(rotateTotal_length (none : Cell) g).2.2.2] at h3'
    have hrt := rotateTotal_d270_d90 (none : Option Nat) (valMap g)
      (g.headD []).length (by rw [hvlen]; exact hglen) hC hvrect
    simpa [rotateDegreeMap, revertDegreeMap] using hrt
  | right =>
    have hrt := rotateTotal_d180_d180 (none : Option Nat) (valMap g)
      (g.headD []).length (by rw [hvlen]; exact hglen) hvrect
    simpa [rotateDegreeMap, revertDegreeMap] using hrt

/-! ### Lemmas about value sums -/

/-- A mapped range summed as a `Finset` sum. -/
theorem list_range_sum (f : Nat → Nat) (n : Nat) :
    ((List.range n).map f).sum = ∑ i in Finset.range n, f i := by
  induction n with
  | zero => simp
  | succ k ih =>
    rw [List.range_succ, List.map_append, List.sum_append,
      Finset.sum_range_succ, ih]
    simp

/-- A mapped list summed through its positional reads. -/
theorem list_sum_map_getD {α : Type} (l : List α) (f : α → Nat)
    (d : α) :
    (l.map f).sum = ∑ j in Finset.range l.length, f (l.getD j d) := by
  conv_lhs => rw [← range_map_getD_self l d]
  rw [List.map_map, list_range_sum]
  simp [Function.comp]

/-- The sum of a rectangular grid as a double `Finset` sum over
positions. -/
theorem gridSum_eq_sum (m : Map2048) (C : Nat)
    (hrect : ∀ row ∈ m, row.length = C) :
    gridSum m = ∑ i in Finset.range m.length, ∑ j in Finset.range C,
      cellValue ((m.getD i []).getD j none) := by
  rw [gridSum, list_sum_map_getD _ _ ([] : List Cell)]
  apply Finset.sum_congr rfl
  intro i hi
  rw [Finset.mem_range] at hi
  rw [list_sum_map_getD _ _ (none : Cell),
    rect_getD_length m C hrect i hi]

/-- Rotation only permutes the cells, so it preserves the total value
sum of a nonempty rectangular grid. -/
theorem gridSum_rotateTotal (m : Map2048) (C : Nat) (hR : 0 < m.length)
    (hrect : ∀ row ∈ m, row.length = C) (deg : RotateDegree) :
    gridSum (rotateTotal none m deg) = gridSum m := by
  have hhead : (m.headD []).length = C := by
    rw [headD_eq_getD_zero]
    exact rect_getD_length m C hrect 0 hR
  cases deg with
  | d0 => rfl
  | d90 =>
    rw [gridSum_eq_sum m C hrect,
      gridSum_eq_sum (rotateTotal none m .d90) m.length
        (rotateTotal_row_length (none : Cell) m).1,
      (rotateTotal_length (none : Cell) m).2.1, hhead, Finset.sum_comm]
    apply Finset.sum_congr rfl
    intro r hr
    rw [Finset.mem_range] at hr
    calc ∑ c in Finset.range C,
        cellValue (((rotateTotal none m .d90).getD c []).getD r none)
        = ∑ c in Finset.range C,
          cellValue ((m.getD r []).getD (C - 1 - c) none) := by
          apply Finset.sum_congr rfl
          intro c hc
          rw [Finset.mem_range] at hc
          rw [rotateTotal_d90_entry none m c r
            (by rw [hhead]; exact hc) hr]
          have harith : (m.headD []).length - c - 1 = C - 1 - c := by
            rw [hhead]; omega
          rw [harith]
      _ = _ := Finset.sum_range_reflect
          (fun j => cellValue ((m.getD r []).getD j none)) C
  | d180 =>
    rw [gridSum_eq_sum m C hrect,
      gridSum_eq_sum (rotateTotal none m .d180) C (by
        intro row hrow
        rw [← hhead]
        exact (rotateTotal_row_length (none : Cell) m).2.1 row hrow),
      (rotateTotal_length (none : Cell) m).2.2.1]
    calc ∑ r in Finset.range m.length, ∑ c in Finset.range C,
        cellValue (((rotateTotal none m .d180).getD r []).getD c none)
        = ∑ r in Finset.range m.length, ∑ c in Finset.range C,
          cellValue ((m.getD (m.length - 1 - r) []).getD
            (C - 1 - c) none) := by
          apply Finset.sum_congr rfl
          intro r hr
          rw [Finset.mem_range] at hr
          apply Finset.sum_congr rfl
          intro c hc
          rw [Finset.mem_range] at hc
          rw [rotateTotal_d180_entry none m r c hr
            (by rw [hhead]; exact hc)]
          have ha1 : m.length - r - 1 = m.length - 1 - r := by omega
          have ha2 : (m.headD []).length - c - 1 = C - 1 - c := by
            rw [hhead]; omega
          rw [ha1, ha2]
      _ = ∑ r in Finset.range m.length, ∑ c in Finset.range C,
          cellValue ((m.getD (m.length - 1 - r) []).getD c none) := by
          apply Finset.sum_congr rfl
          intro r _
          exact Finset.sum_range_reflect
            (fun j => cellValue ((m.getD (m.length - 1 - r) []).getD
              j none)) C
      _ = _ := Finset.sum_range_reflect
          (fun i => ∑ c in Finset.range C,
            cellValue ((m.getD i []).getD c none)) m.length
  | d270 =>
    rw [gridSum_eq_sum m C hrect,
      gridSum_eq_sum (rotateTotal none m .d270) m.length
        (rotateTotal_row_length (none : Cell) m).2.2,
      (rotateTotal_length (none : Cell) m).2.2.2, hhead, Finset.sum_comm]
    calc ∑ r in Finset.range m.length, ∑ c in Finset.range C,
        cellValue (((rotateTotal none m .d270).getD c []).getD r none)
        = ∑ r in Finset.range m.length, ∑ c in Finset.range C,
          cellValue ((m.getD (m.length - 1 - r) []).getD c none) := by
          apply Finset.sum_congr rfl
          intro r hr
          rw [Finset.mem_range] at hr
          apply Finset.sum_congr rfl
          intro c hc
          rw [Finset.mem_range] at hc
          rw [rotateTotal_d270_entry none m c r
            (by rw [hhead]; exact hc) hr]
          have ha1 : m.length - r - 1 = m.length - 1 - r := by omega
          rw [ha1]
      _ = _ := Finset.sum_range_reflect
          (fun i => ∑ c in Finset.range C,
            cellValue ((m.getD i []).getD c none)) m.length

/-- The emitted values of the specification scan sum to the scanned
values (plus a pending value, if any): merging two `v` tiles into one
`2v` tile conserves the sum. -/
theorem mergeSpec_sum :
    ∀ (vs : List Nat) (p : Option Nat),
    ((mergeSpec p vs).1.map Prod.fst).sum = (p.elim 0 id) + vs.sum := by
  intro vs
  induction vs with
  | nil => intro p; cases p <;> simp [mergeSpec]
  | cons v t ih =>
    intro p
    cases p with
    | none =>
      have h := ih (some v)
      simp only [mergeSpec]
      simp only [Option.elim] at h ⊢
      rw [h]
      simp [List.sum_cons]
    | some q =>
      by_cases h : q = v
      · have hr := ih none
        simp only [mergeSpec, h, if_pos, List.map_cons, List.sum_cons]
        simp only [Option.elim, id_eq] at hr ⊢
        rw [hr]
        omega
      · have hr := ih (some v)
        simp only [mergeSpec, h, if_neg, not_false_iff, List.map_cons,
          List.sum_cons]
        simp only [Option.elim, id_eq] at hr ⊢
        rw [hr]

/-- The values dropped from a row when reading only the non-empty cells
are all zero, so the sums agree. -/
theorem rowValues_sum (row : List Cell) :
    (rowValues row).sum = (row.map cellValue).sum := by
  induction row with
  | nil => simp [rowValues]
  | cons c t ih =>
    cases c with
    | none => simpa [rowValues, cellValue, List.filterMap_cons] using ih
    | some o =>
      simp only [rowValues, List.filterMap_cons, Option.map_some',
        List.map_cons, List.sum_cons, cellValue]
      simp only [rowValues] at ih
      rw [ih]

/-- Sliding a row left conserves its value sum. -/
theorem moveRowLeft_sum (row : List Cell) :
    ((moveRowLeft row).result.map cellValue).sum =
      (row.map cellValue).sum := by
  obtain ⟨h1, _⟩ := moveRowLeft_eq_spec row
  rw [h1, List.map_append, List.sum_append]
  have hrep : ((List.replicate
      (row.length - (mergeSpec none (rowValues row)).1.length)
      (none : Cell)).map cellValue).sum = 0 := by
    simp [List.map_replicate, cellValue, List.sum_replicate]
  have hmain : (((mergeSpec none (rowValues row)).1.map
      emittedCell).map cellValue).sum =
      ((mergeSpec none (rowValues row)).1.map Prod.fst).sum := by
    rw [List.map_map]
    rfl
  rw [hrep, hmain, mergeSpec_sum (rowValues row) none, rowValues_sum]
  simp

/-- `moveLeft` conserves the value sum of the whole grid. -/
theorem moveLeft_gridSum (m : Map2048) :
    gridSum (moveLeft m).result = gridSum m := by
  rw [gridSum, gridSum, moveLeft_result_rows, List.map_map]
  congr 1
  apply List.map_congr_left
  intro row _
  simpa [Function.comp] using moveRowLeft_sum row

/-! ### Lemmas about spawning -/

/-- Positional read after an in-range positional write, same index. -/
theorem getD_set_self {α : Type} (l : List α) (n : Nat) (a d : α)
    (h : n < l.length) : (l.set n a).getD n d = a := by
  rw [List.getD_eq_getElem?_getD, List.getElem?_set_self']
  simp [List.getElem?_eq_getElem h]

/-- Positional read after a positional write at a different index. -/
theorem getD_set_ne {α : Type} (l : List α) (m n : Nat) (a d : α)
    (h : m ≠ n) : (l.set m a).getD n d = l.getD n d := by
  rw [List.getD_eq_getElem?_getD, List.getElem?_set_ne h,
    List.getD_eq_getElem?_getD]

/-- Membership in the collected `nullPositions`: exactly the in-range
coordinates of the fixed `4 × 4` scan holding `null`. -/
theorem nullPositions_mem (m : Map2048) (i j : Nat) :
    (i, j) ∈ nullPositions m ↔
      i < 4 ∧ j < 4 ∧ cellAt m i j = none := by
  constructor
  · intro h
    simp only [nullPositions, List.mem_flatMap, List.mem_filterMap,
      List.mem_range] at h
    obtain ⟨a, ha, b, hb, hf⟩ := h
    by_cases hc : cellAt m a b = none
    · rw [if_pos hc] at hf
      obtain ⟨rfl, rfl⟩ := Prod.mk.inj (Option.some.inj hf)
      exact ⟨ha, hb, hc⟩
    · rw [if_neg hc] at hf
      exact absurd hf (by simp)
  · rintro ⟨hi, hj, hc⟩
    simp only [nullPositions, List.mem_flatMap, List.mem_filterMap,
      List.mem_range]
    exact ⟨i, hi, j, hj, by rw [if_pos hc]⟩

/-- The score accumulator of `moveLeft` computes the sum of the row
scores. -/
theorem foldl_add_score (l : List RowResult) :
    ∀ s : Nat, l.foldl (fun acc r => acc + r.score) s =
      s + (l.map RowResult.score).sum := by
  induction l with
  | nil => intro s; simp
  | cons a t ih =>
    intro s
    rw [List.foldl_cons, ih, List.map_cons, List.sum_cons]
    omega

/-- A list of positive length is not empty. -/
theorem isEmpty_eq_false_of_length_pos {α : Type} (l : List α)
    (h : 0 < l.length) : l.isEmpty = false := by
  cases l with
  | nil => simp at h
  | cons a t => rfl

/-! ### The claims -/

/-- Claim C1, evaluation of the code at the failing input: on a full
`4 × 4` board whose sixteen tiles all hold value `2` (each a distinct
object, as the program always allocates them), every cell is non-empty,
the two adjacent cells at `(0,0)` and `(0,1)` hold equal values, and yet
`userLoses` returns `true` — because both neighbour comparisons use JS
`===`, which compares object references, never values.  The claim (and
the spec) require `false` here. -/
theorem userLoses_full_mergeable_board :
    userLoses allTwosGrid = true ∧
    cellAtR allTwosGrid 0 0 = some (⟨CellState.normal, 2⟩, 0) ∧
    cellAtR allTwosGrid 0 1 = some (⟨CellState.normal, 2⟩, 1) ∧
    (cellAtR allTwosGrid 0 0).map (fun c => c.1.value) =
      (cellAtR allTwosGrid 0 1).map (fun c => c.1.value) ∧
    ((List.range 4).all (fun i => (List.range 4).all (fun j =>
      !(cellAtR allTwosGrid i j).isNone))) = true := by
  refine ⟨by decide, by decide, by decide, by decide, by decide⟩

/-- Claim C2: the line reducer merges equal-valued non-empty cells
pairwise left-to-right into one cell of doubled value with state
`merged`, adds each merged value to the score, and never re-merges a
freshly merged cell — its output is exactly the specification's
pending-cell scan `mergeSpec`, padded with `null`s; in particular
`[2,2,2,_]` becomes `[4,2,_,_]` with `isMoved = true` and score `4`. -/
theorem moveRowLeft_merge_semantics :
    (∀ row : List Cell,
      (moveRowLeft row).result =
        ((mergeSpec none (rowValues row)).1.map emittedCell) ++
          List.replicate
            (row.length - (mergeSpec none (rowValues row)).1.length)
            none ∧
      (moveRowLeft row).score = (mergeSpec none (rowValues row)).2) ∧
    moveRowLeft [some ⟨CellState.normal, 2⟩, some ⟨CellState.normal, 2⟩,
        some ⟨CellState.normal, 2⟩, none] =
      ⟨[some ⟨CellState.merged, 4⟩, some ⟨CellState.normal, 2⟩, none,
        none], true, 4⟩ :=
  ⟨moveRowLeft_eq_spec, by decide⟩

/-- Claim C3: the `isMoved` flag of the line reducer is true exactly
when some position's value changed; a state change with an unchanged
value does not count, and two empty positions compare as unchanged (the
example conjunct: a lone `new` tile already at the left edge is
re-emitted as `normal` with `isMoved = false`). -/
theorem moveRowLeft_isMoved_iff :
    (∀ row : List Cell,
      ((moveRowLeft row).isMoved = true ↔
        ∃ i, i < row.length ∧
          (row.getD i none).map CellObject.value ≠
            ((moveRowLeft row).result.getD i none).map
              CellObject.value)) ∧
    (moveRowLeft [some ⟨CellState.new, 2⟩, none, none, none]).isMoved
      = false ∧
    (moveRowLeft [some ⟨CellState.new, 2⟩, none, none, none]).result =
      [some ⟨CellState.normal, 2⟩, none, none, none] := by
  refine ⟨?_, by decide, by decide⟩
  intro row
  have hlen : row.length = (moveRowLeft row).result.length :=
    (moveRowLeft_result_length row).symm
  have h := zip_any_iff_exists
    (fun a b => a.map CellObject.value != b.map CellObject.value)
    row (moveRowLeft row).result hlen
  constructor
  · intro hm
    obtain ⟨i, hi, hp⟩ := h.mp hm
    exact ⟨i, hi, by simpa [bne_iff_ne] using hp⟩
  · rintro ⟨i, hi, hne⟩
    exact h.mpr ⟨i, hi, by simpa [bne_iff_ne] using hne⟩

/-- Claim C4: when a move reports `isMoved = false`, the returned grid
equals the input value-for-value — empty exactly where the input is
empty, and with the same value on every tile. -/
theorem move_not_moved_value_identity (g : Map2048) (dir : Direction)
    (r : MoveResult) (hok : moveMapIn2048Rule g dir = .ok r)
    (hnm : r.isMoved = false) : valMap r.result = valMap g :=
  moveMap_not_moved_valMap g dir r hok hnm

/-- Witness for claim C4 at a concrete stuck board. -/
theorem move_not_moved_value_identity_witness :
    moveMapIn2048Rule gStuck .left = .ok ⟨gStuck, false, 0⟩ ∧
    valMap (MoveResult.mk gStuck false 0).result = valMap gStuck :=
  ⟨by decide, move_not_moved_value_identity gStuck .left
    ⟨gStuck, false, 0⟩ (by decide) rfl⟩

/-- Claim C5 counterexample: `[[]]` is rectangular by the code's own
validator (one row, of length `0`), its `90°` rotation is the empty
grid, and rotating that back by `270°` throws a `TypeError` (reading
`map[0].length` of an empty array) instead of returning `[[]]`;
likewise rotating the empty grid by `0°` throws instead of acting as
the identity. -/
theorem rotate_roundtrip_cex :
    validateMapIsNByM ([[]] : Map2048) = true ∧
    rotateMapCounterClockwise ([[]] : Map2048) .d90 =
      .ok ([] : Map2048) ∧
    rotateMapCounterClockwise ([] : Map2048) .d270 ≠
      .ok ([[]] : Map2048) ∧
    rotateMapCounterClockwise ([] : Map2048) .d0 ≠
      .ok ([] : Map2048) := by
  refine ⟨by decide, by decide, by decide, by decide⟩

/-- Claim C5 (amended): on grids with at least one row and one column,
rotation is an order-four group action — `90°` then `270°` restores the
grid, and `0°` is the identity; the original claim fails only on
degenerate grids with no rows or zero-length rows, where the code
throws a `TypeError`. -/
theorem rotate_roundtrip (g : Map2048) (C : Nat) (hg : g ≠ [])
    (hC : 0 < C) (hrect : ∀ row ∈ g, row.length = C) :
    rotateMapCounterClockwise g .d90 = .ok (rotateTotal none g .d90) ∧
    rotateMapCounterClockwise (rotateTotal none g .d90) .d270 =
      .ok g ∧
    rotateMapCounterClockwise g .d0 = .ok g := by
  have hgE : g.isEmpty = false := by
    cases g with
    | nil => exact absurd rfl hg
    | cons a t => rfl
  have hglen : 0 < g.length := by
    cases g with
    | nil => exact absurd rfl hg
    | cons a t => simp
  have hhead : (g.headD []).length = C := by
    rw [headD_eq_getD_zero]
    exact rect_getD_length g C hrect 0 hglen
  have h90len : 0 < (rotateTotal none g .d90).length := by
    rw [(rotateTotal_length (none : Cell) g).2.1, hhead]
    exact hC
  have h90E : (rotateTotal none g .d90).isEmpty = false :=
    isEmpty_eq_false_of_length_pos _ h90len
  refine ⟨?_, ?_, ?_⟩
  · simp [rotateMapCounterClockwise, hgE]
  · simp only [rotateMapCounterClockwise, h90E, Bool.false_eq_true,
      if_false]
    rw [rotateTotal_d90_d270 (none : Cell) g C hglen hC hrect]
  · simp only [rotateMapCounterClockwise, hgE, Bool.false_eq_true,
      if_false]
    rfl

/-- Witness for claim C5 (amended) at a concrete `1 × 1` board. -/
theorem rotate_roundtrip_witness :
    rotateMapCounterClockwise (rotateTotal none gOne .d90) .d270 =
      .ok gOne ∧
    rotateMapCounterClockwise gOne .d0 = .ok gOne :=
  ⟨(rotate_roundtrip gOne 1 (by decide) (by decide) (by decide)).2.1,
   (rotate_roundtrip gOne 1 (by decide) (by decide) (by decide)).2.2⟩

/-- Claim C6: on a rectangular `R × C` grid (`R ≥ 1`, so that the
first-row length `C` is defined), each rotation returns (without error)
the grid of the stated dimensions with the stated pointwise index
remapping: `90°` gives `C × R` with `out[c][r] = in[r][C-1-c]`, `180°`
gives `R × C` with `out[r][c] = in[R-1-r][C-1-c]`, `270°` gives `C × R`
with `out[c][r] = in[R-1-r][c]`. -/
theorem rotate_index_remapping (g : Map2048) (R C : Nat)
    (hR : g.length = R) (hrect : ∀ row ∈ g, row.length = C)
    (hpos : 0 < R) :
    (rotateMapCounterClockwise g .d90 =
        .ok (rotateTotal none g .d90) ∧
      (rotateTotal none g .d90).length = C ∧
      (∀ row ∈ rotateTotal none g .d90, row.length = R) ∧
      (∀ c r, c < C → r < R →
        cellAt (rotateTotal none g .d90) c r =
          cellAt g r (C - 1 - c))) ∧
    (rotateMapCounterClockwise g .d180 =
        .ok (rotateTotal none g .d180) ∧
      (rotateTotal none g .d180).length = R ∧
      (∀ row ∈ rotateTotal none g .d180, row.length = C) ∧
      (∀ r c, r < R → c < C →
        cellAt (rotateTotal none g .d180) r c =
          cellAt g (R - 1 - r) (C - 1 - c))) ∧
    (rotateMapCounterClockwise g .d270 =
        .ok (rotateTotal none g .d270) ∧
      (rotateTotal none g .d270).length = C ∧
      (∀ row ∈ rotateTotal none g .d270, row.length = R) ∧
      (∀ c r, c < C → r < R →
        cellAt (rotateTotal none g .d270) c r =
          cellAt g (R - 1 - r) c)) := by
  have hglen : 0 < g.length := by omega
  have hgE : g.isEmpty = false :=
    isEmpty_eq_false_of_length_pos g hglen
  have hhead : (g.headD []).length = C := by
    rw [headD_eq_getD_zero]
    exact rect_getD_length g C hrect 0 hglen
  refine ⟨⟨?_, ?_, ?_, ?_⟩, ⟨?_, ?_, ?_, ?_⟩, ⟨?_, ?_, ?_, ?_⟩⟩
  · simp [rotateMapCounterClockwise, hgE]
  · rw [(rotateTotal_length (none : Cell) g).2.1, hhead]
  · intro row hrow
    rw [← hR]
    exact (rotateTotal_row_length (none : Cell) g).1 row hrow
  · intro c r hc hr
    show ((rotateTotal none g .d90).getD c []).getD r none = _
    rw [rotateTotal_d90_entry none g c r (by rw [hhead]; exact hc)
      (by rw [hR]; exact hr)]
    have harith : (g.headD []).length - c - 1 = C - 1 - c := by
      rw [hhead]; omega
    rw [harith]
    rfl
  · simp [rotateMapCounterClockwise, hgE]
  · rw [(rotateTotal_length (none : Cell) g).2.2.1, hR]
  · intro row hrow
    rw [← hhead]
    exact (rotateTotal_row_length (none : Cell) g).2.1 row hrow
  · intro r c hr hc
    show ((rotateTotal none g .d180).getD r []).getD c none = _
    rw [rotateTotal_d180_entry none g r c (by rw [hR]; exact hr)
      (by rw [hhead]; exact hc)]
    have ha1 : g.length - r - 1 = R - 1 - r := by rw [hR]; omega
    have ha2 : (g.headD []).length - c - 1 = C - 1 - c := by
      rw [hhead]; omega
    rw [ha1, ha2]
    rfl
  · simp [rotateMapCounterClockwise, hgE]
  · rw [(rotateTotal_length (none : Cell) g).2.2.2, hhead]
  · intro row hrow
    rw [← hR]
    exact (rotateTotal_row_length (none : Cell) g).2.2 row hrow
  · intro c r hc hr
    show ((rotateTotal none g .d270).getD c []).getD r none = _
    rw [rotateTotal_d270_entry none g c r (by rw [hhead]; exact hc)
      (by rw [hR]; exact hr)]
    have ha1 : g.length - r - 1 = R - 1 - r := by rw [hR]; omega
    rw [ha1]
    rfl

/-- Witness for claim C6 at a concrete `1 × 2` board: the `90°`
rotation puts the first row's last cell on top. -/
theorem rotate_index_remapping_witness :
    cellAt (rotateTotal none gRow .d90) 0 0 = cellAt gRow 0 (2 - 1 - 0)
      ∧ (rotateTotal none gRow .d90).length = 2 :=
  ⟨((rotate_index_remapping gRow 1 2 rfl (by decide)
      (by decide)).1.2.2.2) 0 0 (by decide) (by decide),
   (rotate_index_remapping gRow 1 2 rfl (by decide)
      (by decide)).1.2.1⟩

/-- Claim C7: a move is exactly the composition rotate-forward, reduce
every row leftward, rotate back by `360 − forward (mod 360)`; its
`isMoved` is true when some row moved and its score is the sum of the
per-row scores.  The angles are the specification's tables
(`forwardAngle`, `inverseAngle`), which coincide with the code's
`rotateDegreeMap`/`revertDegreeMap`. -/
theorem move_rotation_consistent (g : Map2048) (dir : Direction)
    (r : MoveResult) (hok : moveMapIn2048Rule g dir = .ok r) :
    r.result = rotateTotal none
      ((rotateTotal none g (degOfAngle (forwardAngle dir))).map
        (fun row => (moveRowLeft row).result))
      (degOfAngle (inverseAngle dir)) ∧
    r.isMoved = ((rotateTotal none g
      (degOfAngle (forwardAngle dir))).map moveRowLeft).any
        RowResult.isMoved ∧
    r.score = (((rotateTotal none g
      (degOfAngle (forwardAngle dir))).map moveRowLeft).map
        RowResult.score).sum := by
  obtain ⟨h1, h2, h3, hr⟩ := moveMap_ok_inversion g dir r hok
  have hfwd : degOfAngle (forwardAngle dir) = rotateDegreeMap dir := by
    cases dir <;> rfl
  have hrev : degOfAngle (inverseAngle dir) = revertDegreeMap dir := by
    cases dir <;> rfl
  rw [hfwd, hrev, hr]
  refine ⟨?_, rfl, ?_⟩
  · show rotateTotal none
      (moveLeft (rotateTotal none g (rotateDegreeMap dir))).result
      (revertDegreeMap dir) = _
    rw [moveLeft_result_rows]
  · show ((rotateTotal none g (rotateDegreeMap dir)).map
      moveRowLeft).foldl (fun acc x => acc + x.score) 0 = _
    rw [foldl_add_score]
    omega

/-- Witness for claim C7 at a concrete board with one merge. -/
theorem move_rotation_consistent_witness :
    (MoveResult.mk [[some ⟨CellState.merged, 4⟩, none], [none, none]]
        true 4).result =
      rotateTotal none
        ((rotateTotal none gPair (degOfAngle (forwardAngle .left))).map
          (fun row => (moveRowLeft row).result))
        (degOfAngle (inverseAngle .left)) :=
  (move_rotation_consistent gPair .left
    ⟨[[some ⟨CellState.merged, 4⟩, none], [none, none]], true, 4⟩
    (by decide)).1

/-- Claim C8: on a `4 × 4` grid with an empty cell, spawning (with the
random draws passed explicitly: any coin, any in-range index into the
empty-cell list) returns a grid that differs from the input at exactly
one position — empty before, `{state: new, value: 2 or 4}` after — and
leaves every other position unchanged. -/
theorem addNewCell_spawn_frame (m : Map2048) (coin : Bool) (k : Nat)
    (h4 : m.length = 4) (hrows : ∀ row ∈ m, row.length = 4)
    (hk : k < (nullPositions m).length) :
    ∃ i j g', addNewCell m coin k = .ok g' ∧ i < 4 ∧ j < 4 ∧
      cellAt m i j = none ∧
      cellAt g' i j = some ⟨CellState.new, if coin then 2 else 4⟩ ∧
      ((if coin then (2 : Nat) else 4) = 2 ∨
        (if coin then (2 : Nat) else 4) = 4) ∧
      g'.length = m.length ∧
      (∀ i' j', ¬(i' = i ∧ j' = j) →
        cellAt g' i' j' = cellAt m i' j') := by
  obtain ⟨p, hget⟩ : ∃ p, (nullPositions m).get? k = some p :=
    ⟨_, List.get?_eq_get hk⟩
  obtain ⟨i, j⟩ := p
  have hmem : (i, j) ∈ nullPositions m := List.get?_mem hget
  obtain ⟨hi, hj, hcnone⟩ := (nullPositions_mem m i j).mp hmem
  have hget' : (nullPositions m)[k]? = some (i, j) := by
    rw [← List.get?_eq_getElem?]
    exact hget
  have hilen : i < m.length := by omega
  have hjlen : j < (m.getD i []).length := by
    rw [rect_getD_length m 4 hrows i hilen]
    exact hj
  refine ⟨i, j, m.set i ((m.getD i []).set j
    (some ⟨CellState.new, if coin then 2 else 4⟩)), ?_, hi, hj, hcnone,
    ?_, ?_, ?_, ?_⟩
  · simp [addNewCell, hget']
  · show ((m.set i _).getD i []).getD j none = _
    rw [getD_set_self _ _ _ _ hilen, getD_set_self _ _ _ _ hjlen]
  · cases coin <;> simp
  · simp
  · intro i' j' hne
    by_cases hii : i' = i
    · subst hii
      have hjj : j ≠ j' := fun h => hne ⟨rfl, h.symm⟩
      show ((m.set i' _).getD i' []).getD j' none =
        (m.getD i' []).getD j' none
      rw [getD_set_self _ _ _ _ hilen, getD_set_ne _ _ _ _ _ hjj]
    · have hii' : i ≠ i' := fun h => hii h.symm
      show ((m.set i _).getD i' []).getD j' none =
        (m.getD i' []).getD j' none
      rw [getD_set_ne _ _ _ _ _ hii']
/-- Witness for claim C8 at a concrete board with one hole. -/
theorem addNewCell_spawn_frame_witness :
    ∃ i j g', addNewCell gHole true 0 = .ok g' ∧ i < 4 ∧ j < 4 ∧
      cellAt gHole i j = none ∧
      cellAt g' i j = some ⟨CellState.new, if true then 2 else 4⟩ ∧
      ((if true then (2 : Nat) else 4) = 2 ∨
        (if true then (2 : Nat) else 4) = 4) ∧
      g'.length = gHole.length ∧
      (∀ i' j', ¬(i' = i ∧ j' = j) →
        cellAt g' i' j' = cellAt gHole i' j') :=
  addNewCell_spawn_frame gHole true 0 rfl (by decide) (by decide)

/-- Claim C9 (amended): on grids with at least one row and a nonzero
first-row length, a move succeeds exactly when the grid is rectangular
and otherwise throws `Error("Map is not N by M")`; a spawn on a `4 × 4`
grid (the only shape the fixed-range scan of `addNewCell` reads
faithfully) with no empty cell throws, and with an empty cell (and an
in-range random index) succeeds; game events (`isMoved = false` among
them) are returned inside `ok` values, never thrown.  The original
claim fails on degenerate rectangular grids (no rows, or zero-width
rows moved in a rotating direction), where the code throws a
`TypeError`. -/
theorem error_discipline (g : Map2048) (dir : Direction) (m : Map2048)
    (coin : Bool) (k : Nat) (hg : g ≠ [])
    (hcol : 0 < (g.headD []).length) (hm4 : m.length = 4)
    (hmr : ∀ row ∈ m, row.length = 4) :
    (validateMapIsNByM g = true →
      ∃ r, moveMapIn2048Rule g dir = .ok r) ∧
    (validateMapIsNByM g = false →
      moveMapIn2048Rule g dir =
        .error (.errorMsg "Map is not N by M")) ∧
    (nullPositions m = [] →
      addNewCell m coin k = .error .typeError) ∧
    (k < (nullPositions m).length →
      ∃ g', addNewCell m coin k = .ok g') := by
  have hglen : 0 < g.length := by
    cases g with
    | nil => exact absurd rfl hg
    | cons a t => simp
  have hgE : g.isEmpty = false := isEmpty_eq_false_of_length_pos g hglen
  refine ⟨?_, ?_, ?_, ?_⟩
  · intro hval
    have hrotlen : 0 <
        (rotateTotal none g (rotateDegreeMap dir)).length := by
      cases dir with
      | left => exact hglen
      | up =>
        show 0 < (rotateTotal none g .d90).length
        rw [(rotateTotal_length (none : Cell) g).2.1]
        exact hcol
      | right =>
        show 0 < (rotateTotal none g .d180).length
        rw [(rotateTotal_length (none : Cell) g).2.2.1]
        exact hglen
      | down =>
        show 0 < (rotateTotal none g .d270).length
        rw [(rotateTotal_length (none : Cell) g).2.2.2]
        exact hcol
    have hMLlen : 0 < (moveLeft (rotateTotal none g
        (rotateDegreeMap dir))).result.length := by
      rw [moveLeft_result_num_rows]
      exact hrotlen
    have hMLE := isEmpty_eq_false_of_length_pos _ hMLlen
    refine ⟨⟨rotateTotal none (moveLeft (rotateTotal none g
      (rotateDegreeMap dir))).result (revertDegreeMap dir),
      (moveLeft (rotateTotal none g (rotateDegreeMap dir))).isMoved,
      (moveLeft (rotateTotal none g (rotateDegreeMap dir))).score⟩, ?_⟩
    simp [moveMapIn2048Rule, validateMapIsNByM_E,
      rotateMapCounterClockwise, hgE, hval, hMLE]
  · intro hval
    simp [moveMapIn2048Rule, validateMapIsNByM_E, hgE, hval]
  · intro hnull
    simp [addNewCell, hnull]
  · intro hk
    obtain ⟨p, hget⟩ : ∃ p, (nullPositions m).get? k = some p :=
      ⟨_, List.get?_eq_get hk⟩
    obtain ⟨i, j⟩ := p
    have hget' : (nullPositions m)[k]? = some (i, j) := by
      rw [← List.get?_eq_getElem?]
      exact hget
    exact ⟨m.set i ((m.getD i []).set j
      (some ⟨CellState.new, if coin then 2 else 4⟩)),
      by simp [addNewCell, hget']⟩

/-- Counterexample to claim C9 as stated: `[[]]` is rectangular (the
code's own validator accepts it), yet moving it `up` throws a
`TypeError` — the `270°` back-rotation reads `map[0].length` of the
empty intermediate grid. -/
theorem error_discipline_cex :
    validateMapIsNByM ([[]] : Map2048) = true ∧
    moveMapIn2048Rule ([[]] : Map2048) .up = .error .typeError := by
  refine ⟨by decide, by decide⟩

/-- Witness for claim C9 (amended) at concrete boards. -/
theorem error_discipline_witness :
    (∃ r, moveMapIn2048Rule gRow .left = .ok r) ∧
    (∃ g', addNewCell gHole true 0 = .ok g') :=
  ⟨(error_discipline gRow .left gHole true 0 (by decide)
      (by decide) rfl (by decide)).1 (by decide),
   (error_discipline gRow .left gHole true 0 (by decide)
      (by decide) rfl (by decide)).2.2.2 (by decide)⟩

/-- Claim C10: a successful move conserves the total of all tile
values — merging replaces two `v` tiles by one `2v` tile, and both
rotations only rearrange the cells. -/
theorem move_conserves_value_sum (g : Map2048) (dir : Direction)
    (r : MoveResult) (hok : moveMapIn2048Rule g dir = .ok r) :
    gridSum r.result = gridSum g := by
  obtain ⟨h1, h2, h3, hr⟩ := moveMap_ok_inversion g dir r hok
  have hglen : 0 < g.length := by
    cases g with
    | nil => simp at h1
    | cons a t => simp
  have hrect := validate_rect g h2
  have hsum1 : gridSum (rotateTotal none g (rotateDegreeMap dir)) =
      gridSum g :=
    gridSum_rotateTotal g _ hglen hrect _
  have hMLlen : 0 < (moveLeft (rotateTotal none g
      (rotateDegreeMap dir))).result.length := by
    cases hres : (moveLeft (rotateTotal none g
        (rotateDegreeMap dir))).result with
    | nil => rw [hres] at h3; simp at h3
    | cons a t => simp
  have hsum2 : gridSum (moveLeft (rotateTotal none g
      (rotateDegreeMap dir))).result =
      gridSum (rotateTotal none g (rotateDegreeMap dir)) :=
    moveLeft_gridSum _
  rw [hr]
  show gridSum (rotateTotal none (moveLeft (rotateTotal none g
    (rotateDegreeMap dir))).result (revertDegreeMap dir)) = gridSum g
  cases dir with
  | left =>
    calc gridSum (rotateTotal none (moveLeft (rotateTotal none g
          (rotateDegreeMap .left))).result (revertDegreeMap .left))
        = gridSum (moveLeft (rotateTotal none g
          (rotateDegreeMap .left))).result := rfl
      _ = gridSum g := by rw [hsum2, hsum1]
  | up =>
    have hrectML : ∀ row ∈ (moveLeft (rotateTotal none g
        (rotateDegreeMap .up))).result, row.length = g.length :=
      moveLeft_rect _ _ ((rotateTotal_row_length (none : Cell) g).1)
    calc gridSum (rotateTotal none (moveLeft (rotateTotal none g
          (rotateDegreeMap .up))).result (revertDegreeMap .up))
        = gridSum (moveLeft (rotateTotal none g
          (rotateDegreeMap .up))).result :=
          gridSum_rotateTotal _ g.length hMLlen hrectML _
      _ = gridSum g := by rw [hsum2, hsum1]
  | down =>
    have hrectML : ∀ row ∈ (moveLeft (rotateTotal none g
        (rotateDegreeMap .down))).result, row.length = g.length :=
      moveLeft_rect _ _ ((rotateTotal_row_length (none : Cell) g).2.2)
    calc gridSum (rotateTotal none (moveLeft (rotateTotal none g
          (rotateDegreeMap .down))).result (revertDegreeMap .down))
        = gridSum (moveLeft (rotateTotal none g
          (rotateDegreeMap .down))).result :=
          gridSum_rotateTotal _ g.length hMLlen hrectML _
      _ = gridSum g := by rw [hsum2, hsum1]
  | right =>
    have hrectML : ∀ row ∈ (moveLeft (rotateTotal none g
        (rotateDegreeMap .right))).result,
        row.length = (g.headD []).length :=
      moveLeft_rect _ _ ((rotateTotal_row_length (none : Cell) g).2.1)
    calc gridSum (rotateTotal none (moveLeft (rotateTotal none g
          (rotateDegreeMap .right))).result (revertDegreeMap .right))
        = gridSum (moveLeft (rotateTotal none g
          (rotateDegreeMap .right))).result :=
          gridSum_rotateTotal _ (g.headD []).length hMLlen hrectML _
      _ = gridSum g := by rw [hsum2, hsum1]

/-- Witness for claim C10 at a concrete board with one merge. -/
theorem move_conserves_value_sum_witness :
    gridSum (MoveResult.mk
      [[some ⟨CellState.merged, 4⟩, none], [none, none]]
      true 4).result = gridSum gPair :=
  move_conserves_value_sum gPair .left
    ⟨[[some ⟨CellState.merged, 4⟩, none], [none, none]], true, 4⟩
    (by decide)
